import Mathlib

/-!
Verification of the WebAssembly execution backend (V8Engine.cpp).

This file shallowly embeds the host-side callbacks and driver logic of the
backend: the result-set reader (read_result_set), the index-seek callbacks
(index_seek), the string-literal mapping of create_env, the date rendering of
print_constant, and the control flow of V8Engine::execute.  Definitions are
translated from the source; components of the repository that are not part of
the provided sources (Schema methods, the ArrayIndex structure, the
Interpreter's load/print programs) are modelled from the specification and
marked as such.
-/

/-- The column types relevant to the claims.  The source's type taxonomy also
has float and datetime types, which no claim exercises. -/
inductive Ty where
  | none
  | boolean
  | integer
  | char_seq
  | date
deriving DecidableEq

/-- A schema entry: an identifier, a type, and a constant marker.
Modelled from the spec: a schema is an ordered sequence of entries, each
carrying an identifier, a type, and a constant-marker bit (the source's
entry.id.is_constant()). -/
structure SchemaEntry where
  id : String
  ty : Ty
  isConst : Bool
deriving DecidableEq

/-- A constant value, the result of Interpreter::eval on an ast::Constant. -/
inductive Constant where
  | cNull
  | cBool (b : Bool)
  | cInt (n : Int)
  | cStr (s : String)
deriving DecidableEq

/-- Helper of deduplicate: keep each entry whose identifier was not seen
before, scanning left to right. -/
def dedupAux (seen : List String) : List SchemaEntry → List SchemaEntry
  | [] => []
  | e :: rest =>
    if e.id ∈ seen then dedupAux seen rest
    else e :: dedupAux (e.id :: seen) rest

/-- Modelled from the spec: schema.deduplicate() collapses duplicate
identifiers, first occurrence wins. -/
def deduplicate (s : List SchemaEntry) : List SchemaEntry :=
  dedupAux [] s

/-- Modelled from the spec: schema.drop_constants() removes the
constant-marked entries. -/
def drop_constants (s : List SchemaEntry) : List SchemaEntry :=
  s.filter fun e => !e.isConst

/-- The physical operator taxonomy needed by the result-set reader and the
driver: sinks (callback, print, no-op), projections (carrying the projection
expressions: some constant for a constant expression, none for a non-constant
expression such as a designator), and a producer (scan) closing the chain. -/
inductive Operator where
  | callback (schema : List SchemaEntry) (child : Operator)
  | print (schema : List SchemaEntry) (child : Operator)
  | noop (schema : List SchemaEntry) (child : Operator)
  | projection (schema : List SchemaEntry) (projs : List (Option Constant)) (child : Operator)
  | scan (schema : List SchemaEntry)
deriving DecidableEq

/-- root_op.schema() of the source. -/
def rootSchema : Operator → List SchemaEntry
  | .callback s _ => s
  | .print s _ => s
  | .noop s _ => s
  | .projection s _ _ => s
  | .scan s => s

/-- The find_projection lambda of read_result_set: return the projection
nearest to the plan's root, descending the single-child chain of consumers;
a producer without a projection above it yields none. -/
def find_projection : Operator → Option (List (Option Constant))
  | .projection _ p _ => some p
  | .callback _ c => find_projection c
  | .print _ c => find_projection c
  | .noop _ c => find_projection c
  | .scan _ => none

/-- The three emission modes of the result-set reader, selected by the root
operator kind via cast<CallbackOperator> / cast<PrintOperator>; every other
root operator kind falls through both casts and emits nothing. -/
inductive Sink where
  | callback
  | print
  | other
deriving DecidableEq

def sinkOf : Operator → Sink
  | .callback _ _ => .callback
  | .print _ _ => .print
  | _ => .other

/-- as<ast::Constant>(projections[i].first) followed by Interpreter::eval: the
projection expression at position i, read as a constant.  The source performs
an unchecked cast here; a non-constant expression at a consulted position is
undefined behaviour, modelled by an arbitrary default. -/
def evalConstAt (projs : List (Option Constant)) (i : Nat) : Constant :=
  (projs.getD i none).getD .cNull

/-- schema entry at position i (positions are always kept below the schema
length; the default is never consulted in the theorems). -/
def entryD (s : List SchemaEntry) (i : Nat) : SchemaEntry :=
  s.getD i ⟨"", Ty.none, false⟩

/-- Zero-pad the decimal rendering of n on the left to at least w characters,
as an output stream with fill('0') and setw(w) does for a non-negative
number. -/
def padZeros (w : Nat) (n : Nat) : String :=
  String.mk (List.replicate (w - (Nat.repr n).length) '0') ++ Nat.repr n

/-- Stream output of a signed integer under fill('0'), internal adjustment and
setw(w): the sign comes first, then the fill, then the digits. -/
def padInternal (w : Nat) (n : Int) : String :=
  if n < 0 then "-" ++ padZeros (w - 1) n.natAbs else padZeros w n.toNat

/-- The Date branch of print_constant: the packed value is
year<<9 | month<<5 | day; the year is the arithmetic right shift by 9
(floor division by 512, which Int ediv by a positive divisor is), the month
the low four bits after shifting by 5, the day the low five bits.  The year
field width is 4 if the year is positive and 5 otherwise. -/
def format_date (date : Int) : String :=
  let year := date / 512
  let month := (date / 32) % 16
  let day := date % 32
  padInternal (if 0 < year then 4 else 5) year ++ "-" ++
    padZeros 2 month.toNat ++ "-" ++ padZeros 2 day.toNat

/-- The print_constant helper of read_result_set: render a constant of the
given type.  A none type renders NULL before the value is inspected; booleans
render TRUE/FALSE; integers render their decimal value; strings are quoted
with double quotes and no escaping; dates are rendered by the bit-unpacking
branch.  A value/type mismatch is unreachable in the source and rendered
arbitrarily here. -/
def print_constant (c : Constant) (ty : Ty) : String :=
  match ty with
  | .none => "NULL"
  | .boolean =>
    match c with
    | .cBool b => if b then "TRUE" else "FALSE"
    | _ => ""
  | .integer =>
    match c with
    | .cInt n => toString n
    | _ => ""
  | .char_seq =>
    match c with
    | .cStr s => "\"" ++ s ++ "\""
    | _ => ""
  | .date =>
    match c with
    | .cInt bits => format_date bits
    | _ => ""

/-- Case A of read_result_set with a callback root: the template tuple built
once from the projection's constants; entries of none type stay unset
(implicitly NULL), every other entry is set to the evaluated projection
constant. -/
def templateTuple (schema : List SchemaEntry) (projs : List (Option Constant)) :
    List (Option Constant) :=
  (List.range schema.length).map fun i =>
    if (entryD schema i).ty = Ty.none then none else some (evalConstAt projs i)

/-- Case A of read_result_set with a print root: the template line built once,
comma-separating print_constant of each projection constant at the entry's
type. -/
def templateLine (schema : List SchemaEntry) (projs : List (Option Constant)) : String :=
  String.intercalate ","
    ((List.range schema.length).map fun i =>
      print_constant (evalConstAt projs i) (entryD schema i).ty)

/-- deduplicated_schema_without_constants[e.id].first of the source: position
of the payload entry carrying the given identifier. -/
def payloadIndex (payload : List SchemaEntry) (id : String) : Nat :=
  payload.findIdx fun f => decide (f.id = id)

/-- Case B of read_result_set (no deduplication) with a callback root.
Modelled from the spec: the loader compiled by Interpreter::compile_load reads
each payload entry of the current tuple directly from the buffer, and the
constants are re-inserted at their original positions; entries of none type
stay unset. -/
def rowNoDedup (schema payload : List SchemaEntry) (projs : List (Option Constant))
    (row : List (Option Constant)) : List (Option Constant) :=
  (List.range schema.length).map fun i =>
    let e := entryD schema i
    if e.ty = Ty.none then none
    else if e.isConst then some (evalConstAt projs i)
    else row.getD (payloadIndex payload e.id) none

/-- The tuple with duplicates and constants before the copy program runs:
constants are planted once, everything else is unset (lines 463-470 of the
source). -/
def rowBase (schema : List SchemaEntry) (projs : List (Option Constant)) :
    List (Option Constant) :=
  (List.range schema.length).map fun i =>
    let e := entryD schema i
    if e.ty = Ty.none then none
    else if e.isConst then some (evalConstAt projs i)
    else none

/-- One store group of the copy program: store value v into every output
position whose identifier matches. -/
def storeMatching (schema : List SchemaEntry) (id : String) (v : Option Constant)
    (t : List (Option Constant)) : List (Option Constant) :=
  (List.range schema.length).map fun j =>
    if (entryD schema j).id = id then v else t.getD j none

/-- Case C of read_result_set (deduplication happened) with a callback root:
the compiled copy program.  For each payload entry in order, the loaded value
(none for a none-typed entry, for which no load is emitted) is stored into
every output position whose identifier matches; constants were planted once
before the loop. -/
def rowDedup (schema payload : List SchemaEntry) (projs : List (Option Constant))
    (row : List (Option Constant)) : List (Option Constant) :=
  (List.range payload.length).foldl
    (fun t i =>
      let f := entryD payload i
      let v := if f.ty = Ty.none then none else row.getD i none
      storeMatching schema f.id v t)
    (rowBase schema projs)

/-- The print path for a non-empty payload schema.  Modelled from the spec:
per row one comma-separated line; a none-typed entry prints NULL, a constant
entry prints its projection constant, every other entry prints the loaded
payload value of its identifier (NULL when unset). -/
def renderRow (schema payload : List SchemaEntry) (projs : List (Option Constant))
    (row : List (Option Constant)) : String :=
  String.intercalate ","
    ((List.range schema.length).map fun j =>
      let e := entryD schema j
      if e.ty = Ty.none then "NULL"
      else if e.isConst then print_constant (evalConstAt projs j) e.ty
      else
        match row.getD (payloadIndex payload e.id) none with
        | none => "NULL"
        | some v => print_constant v e.ty)

/-- Whether the constant-planting loops of cases B and C reach their
M_insist(bool(projection)): they do iff some entry is constant and not of
none type. -/
def needsProjection (schema : List SchemaEntry) : Bool :=
  schema.any fun e => decide (e.ty ≠ Ty.none) && e.isConst

/-- The per-query host state recovered from the Wasm context registry, as far
as read_result_set consults it: the matched plan and the decoded result
buffer.  The buffer is modelled at the granularity the loader delivers: the
i-th payload-shaped tuple. -/
structure WasmCtx where
  plan : Operator
  buffer : Nat → List (Option Constant)

/-- The observable behaviour of one read_result_set invocation: the tuples
passed to the callback sink, the lines written to the print sink, and the
number of tuples read from the result buffer. -/
structure ReaderOutput where
  tuples : List (List (Option Constant))
  lines : List String
  reads : Nat
deriving DecidableEq

/-- The read_result_set host callback.  Returns none when a host-side
M_insist fails (a fatal abort): the offset/payload-schema invariant, a missing
projection in the constant-only case, a non-constant entry in the constant-only
case, or a missing projection while constants must be planted.  Follows the
source's control flow: the count==0 early return precedes the offset
assertion; then case A (payload schema empty), case B (no deduplication) and
case C (deduplication) follow, dispatched on the root operator kind. -/
def read_result_set (ctx : WasmCtx) (offset count : Nat) : Option ReaderOutput :=
  let schema := rootSchema ctx.plan
  let dedupS := deduplicate schema
  let payload := drop_constants dedupS
  if count = 0 then some ⟨[], [], 0⟩
  else if (offset == 0) != payload.isEmpty then none
  else if payload.isEmpty then
    match find_projection ctx.plan with
    | none => none
    | some projs =>
      match sinkOf ctx.plan with
      | .callback =>
        if schema.any (fun e => decide (e.ty ≠ Ty.none) && !e.isConst) then none
        else some ⟨List.replicate count (templateTuple schema projs), [], 0⟩
      | .print =>
        if schema.any (fun e => !e.isConst) then none
        else some ⟨[], List.replicate count (templateLine schema projs), 0⟩
      | .other => some ⟨[], [], 0⟩
  else
    let projs := (find_projection ctx.plan).getD []
    match sinkOf ctx.plan with
    | .callback =>
      if needsProjection schema && (find_projection ctx.plan).isNone then none
      else if schema.length = dedupS.length then
        some ⟨(List.range count).map (fun i => rowNoDedup schema payload projs (ctx.buffer i)),
              [], count⟩
      else
        some ⟨(List.range count).map (fun i => rowDedup schema payload projs (ctx.buffer i)),
              [], count⟩
    | .print =>
      if needsProjection schema && (find_projection ctx.plan).isNone then none
      else some ⟨[], (List.range count).map (fun i => renderRow schema payload projs (ctx.buffer i)),
                 count⟩
    | .other => some ⟨[], [], 0⟩

/-- Modelled from the spec: an array index is an ordered sequence of
(key, tuple-id) pairs; lower_bound(key) is the first position whose key is not
less than the key, so its distance from begin() on a sorted sequence is the
number of entries with a smaller key. -/
def idx_lower_bound_pos (entries : List (Int × Nat)) (key : Int) : Nat :=
  (entries.takeWhile fun e => decide (e.1 < key)).length

/-- Modelled from the spec: upper_bound(key) is the first position whose key
is greater than the key. -/
def idx_upper_bound_pos (entries : List (Int × Nat)) (key : Int) : Nat :=
  (entries.takeWhile fun e => decide (e.1 ≤ key)).length

/-- The index_seek host callback over an array index with integer keys:
compute the distance from begin() to the matched iterator, insist that it fits
a u32, and return it; an unsatisfiable insist is a fatal abort (none). -/
def index_seek (entries : List (Int × Nat)) (key : Int) (isLower : Bool) : Option Nat :=
  let offset := if isLower then idx_lower_bound_pos entries key
                else idx_upper_bound_pos entries key
  if offset < 2 ^ 32 then some offset else none

/-- The byte prefix that stpcpy copies from a C string: everything up to the
first NUL byte. -/
def cstr (l : List Nat) : List Nat :=
  l.takeWhile fun b => decide (b ≠ 0)

/-- The literal region built by the loop of create_env: each collected literal
is copied NUL-terminated into sequential memory. -/
def literalRegion : List (List Nat) → List Nat
  | [] => []
  | l :: rest => cstr l ++ [0] ++ literalRegion rest

/-- The offset (relative to the start of the region) recorded for the i-th
literal via CodeGenContext::add_literal: the writing position dst minus the
region start when the i-th copy begins. -/
def relOffset : List (List Nat) → Nat → Nat
  | _, 0 => 0
  | [], _ + 1 => 0
  | l :: rest, i + 1 => (cstr l).length + 1 + relOffset rest i

/-- Byte memory after the literal region has been written at base: addresses
inside the region read the region, all others are untouched. -/
def memAfter (mem : Nat → Nat) (base : Nat) (region : List Nat) : Nat → Nat :=
  fun a => if base ≤ a ∧ a - base < region.length then region.getD (a - base) 0 else mem a

/-- The observable outcome of one V8Engine::execute call: the Wasm context
registry size when control leaves execute, whether Dispose_Wasm_Context,
isolate Exit and Module::Dispose were reached, the trailer lines written to
the root sink's stream, and whether the query failed. -/
structure ExecOutcome where
  registry : Nat
  contextDisposed : Bool
  isolateExited : Bool
  moduleDisposed : Bool
  trailer : List String
  failed : Bool
deriving DecidableEq

/-- The row-count trailer of V8Engine::execute: a print-sink or no-op-sink
root receives one line with the row count returned by main, unless the quiet
option is set; every other root kind receives nothing. -/
def resultTrailer (root : Operator) (quiet : Bool) (numRows : Nat) : List String :=
  match root with
  | .print _ _ => if quiet then [] else [toString numRows ++ " rows\n"]
  | .noop _ _ => if quiet then [] else [toString numRows ++ " rows\n"]
  | _ => []

/-- The control flow of V8Engine::execute.  The Wasm context is created
(registry grows by one), the module is compiled and instantiated; when an
inspector is attached, execute returns early after run_inspector without
disposing the context, exiting the isolate or disposing the module; when the
call of main raises a host exception (the guest invoked the throw callback),
the exception propagates out of execute and the same cleanup is skipped; only
when main returns a row count does execute write the trailer, dispose the
context, exit the isolate and dispose the module.  mainResult is none when
the guest raised an exception. -/
def V8Engine_execute (preRegistry : Nat) (plan : Operator) (quiet inspectorOn : Bool)
    (mainResult : Option Nat) : ExecOutcome :=
  let reg := preRegistry + 1
  if inspectorOn then
    ⟨reg, false, false, false, [], false⟩
  else
    match mainResult with
    | none => ⟨reg, false, false, false, [], true⟩
    | some n =>
      ⟨preRegistry, true, true, true, resultTrailer plan quiet n, false⟩

/-- A non-constant integer column named id. -/
def se_id : SchemaEntry := ⟨"id", Ty.integer, false⟩

/-- A plan whose root schema has one non-constant column: its payload schema
is non-empty. -/
def planC1 : Operator := .callback [se_id] (.projection [se_id] [none] (.scan [se_id]))

def ctxC1 : WasmCtx := ⟨planC1, fun _ => []⟩

/-- A constant-only print plan: SELECT 1. -/
def planC2 : Operator :=
  .print [⟨"c", Ty.integer, true⟩]
    (.projection [⟨"c", Ty.integer, true⟩] [some (.cInt 1)] (.scan []))

def ctxC2 : WasmCtx := ⟨planC2, fun _ => []⟩

/-- A deduplicated callback plan: SELECT id, id. -/
def planC3 : Operator :=
  .callback [se_id, se_id] (.projection [se_id, se_id] [none, none] (.scan [se_id]))

/-- The context for SELECT id, id over the single row (7). -/
def ctxC3 : WasmCtx := ⟨planC3, fun _ => [some (.cInt 7)]⟩

/-- C9: For every invocation of read_result_set with count = 0, the callback
returns immediately: no rows are emitted to any sink, no memory is read from
the result buffer, and the offset/payload-schema assertion is not evaluated,
so the offset argument is unconstrained. -/
theorem c9_zero_count_early_return (ctx : WasmCtx) (offset : Nat) :
    read_result_set ctx offset 0 = some ⟨[], [], 0⟩ := by
  rfl

/-- C5: For every completed query whose matched root is a print sink (no
inspector attached, main returned n), the driver writes the single trailer
line with the row count returned by main, unless the quiet option is set. -/
theorem c5_print_trailer (pre : Nat) (schema : List SchemaEntry) (child : Operator)
    (quiet : Bool) (n : Nat) :
    (V8Engine_execute pre (.print schema child) quiet false (some n)).trailer =
      if quiet then [] else [toString n ++ " rows\n"] := by
  simp [V8Engine_execute, resultTrailer]

/-- C10: When the matched plan's root is a no-op sink and the quiet option is
not set, the driver writes the same trailer line with the row count returned
by main to the no-op operator's output stream. -/
theorem c10_noop_trailer (pre : Nat) (schema : List SchemaEntry) (child : Operator)
    (n : Nat) :
    (V8Engine_execute pre (.noop schema child) false false (some n)).trailer =
      [toString n ++ " rows\n"] := by
  simp [V8Engine_execute, resultTrailer]

/-- C4 (amended): for every query executed without an attached inspector whose
main call returns normally, the Wasm context is disposed, the module is
disposed and the isolate is exited, so the Wasm Context Registry size returns
to its pre-query value. -/
theorem c4_cleanup_on_normal_path (pre : Nat) (plan : Operator) (quiet : Bool) (n : Nat) :
    (V8Engine_execute pre plan quiet false (some n)).registry = pre ∧
    (V8Engine_execute pre plan quiet false (some n)).contextDisposed = true ∧
    (V8Engine_execute pre plan quiet false (some n)).isolateExited = true ∧
    (V8Engine_execute pre plan quiet false (some n)).moduleDisposed = true := by
  simp [V8Engine_execute]

/-- C4 counterexample: the claim fails on the code.  When the guest raises a
typed exception through the throw callback, the host exception propagates out
of V8Engine::execute past the cleanup calls, and on the inspector path execute
returns early: in both cases the registry stays one above its pre-query value
and neither the context, the isolate nor the module is released. -/
theorem c4_counterexample :
    ((V8Engine_execute 0 planC1 false false none).registry = 1 ∧
     (V8Engine_execute 0 planC1 false false none).contextDisposed = false ∧
     (V8Engine_execute 0 planC1 false false none).isolateExited = false ∧
     (V8Engine_execute 0 planC1 false false none).moduleDisposed = false) ∧
    ((V8Engine_execute 0 planC1 false true (some 3)).registry = 1 ∧
     (V8Engine_execute 0 planC1 false true (some 3)).contextDisposed = false) := by
  exact ⟨⟨rfl, rfl, rfl, rfl⟩, ⟨rfl, rfl⟩⟩

/-- C1 (amended): for every invocation of read_result_set with count > 0, the
reader asserts that offset = 0 holds iff the payload schema (the root schema
deduplicated and with constant entries dropped) is empty; a mismatch — in
particular offset = 0 with a non-empty payload schema — is a fatal invariant
violation. -/
theorem c1_assert_requires_positive_count (ctx : WasmCtx) (offset count : Nat)
    (hc : count ≠ 0)
    (hmis : ¬((offset = 0) ↔ drop_constants (deduplicate (rootSchema ctx.plan)) = [])) :
    read_result_set ctx offset count = none := by
  have hbne :
      ((offset == 0) != (drop_constants (deduplicate (rootSchema ctx.plan))).isEmpty) = true := by
    by_cases ho : offset = 0 <;>
      by_cases hp : drop_constants (deduplicate (rootSchema ctx.plan)) = [] <;>
        simp [ho, hp, List.isEmpty_iff] at hmis ⊢
  simp [read_result_set, hc, hbne]

/-- C1 witness: a plan with one non-constant column and offset 0 aborts for
count = 1. -/
theorem c1_witness : read_result_set ctxC1 0 1 = none := by
  exact c1_assert_requires_positive_count ctxC1 0 1 (by decide) (by decide)

/-- C1 counterexample: the claim as stated quantifies over every invocation,
but for count = 0 the reader returns before the assertion: offset = 0 with a
non-empty payload schema is not a fatal invariant violation in that case. -/
theorem c1_counterexample :
    drop_constants (deduplicate (rootSchema ctxC1.plan)) ≠ [] ∧
    read_result_set ctxC1 0 0 = some ⟨[], [], 0⟩ := by
  exact ⟨by decide, rfl⟩

/-- C8: in print mode, a date constant bit-packed as year<<9 | month<<5 | day
is rendered as YYYY-MM-DD with month and day zero-padded to two digits and the
year zero-padded to at least four digits; a negative year renders with its
sign and consumes one extra pad column.  The packed value of a date with a
negative year is y*512 + m*32 + d in two's complement, since the OR merges
into the zero low bits of y<<9. -/
theorem c8_date_format (y m d : Int) (hm0 : 0 ≤ m) (hm : m < 16) (hd0 : 0 ≤ d)
    (hd : d < 32) :
    (0 < y → print_constant (.cInt (y * 512 + m * 32 + d)) .date =
       padZeros 4 y.toNat ++ "-" ++ padZeros 2 m.toNat ++ "-" ++ padZeros 2 d.toNat) ∧
    (y < 0 → print_constant (.cInt (y * 512 + m * 32 + d)) .date =
       "-" ++ padZeros 4 y.natAbs ++ "-" ++ padZeros 2 m.toNat ++ "-" ++ padZeros 2 d.toNat) := by
  have hy : (y * 512 + m * 32 + d) / 512 = y := by omega
  have hmo : ((y * 512 + m * 32 + d) / 32) % 16 = m := by omega
  have hda : (y * 512 + m * 32 + d) % 32 = d := by omega
  constructor
  · intro hpos
    simp only [print_constant, format_date, hy, hmo, hda, if_pos hpos, padInternal,
      if_neg (by omega : ¬y < 0)]
  · intro hneg
    simp only [print_constant, format_date, hy, hmo, hda, if_neg (by omega : ¬0 < y),
      padInternal, if_pos hneg]

/-- C8 witness: year 2024, month 1, day 31 renders as 2024-01-31. -/
theorem c8_witness :
    print_constant (.cInt (2024 * 512 + 1 * 32 + 31)) .date = "2024-01-31" := by
  have h := (c8_date_format 2024 1 31 (by decide) (by decide) (by decide) (by decide)).1
    (by decide)
  exact h.trans (by decide)

/-- The prefix taken by takeWhile is never longer than the list. -/
theorem length_takeWhile_le_self {a : Type} (p : a → Bool) :
    ∀ l : List a, (l.takeWhile p).length ≤ l.length := by
  intro l
  induction l with
  | nil => exact Nat.le_refl 0
  | cons x rest ih =>
    by_cases hx : p x = true
    · simpa [List.takeWhile_cons, hx] using ih
    · simp [List.takeWhile_cons, hx]

/-- On a key-sorted entry sequence, the prefix satisfying a downward-closed
key predicate is exactly the set satisfying it, so the distance from begin()
to the first failing position counts the satisfying entries. -/
theorem length_takeWhile_eq_countP_of_sorted (p : Int → Bool)
    (hp : ∀ a b : Int, a ≤ b → p b = true → p a = true) :
    ∀ (l : List (Int × Nat)), l.Pairwise (fun a b => a.1 ≤ b.1) →
      (l.takeWhile fun e => p e.1).length = l.countP fun e => p e.1 := by
  intro l hl
  induction l with
  | nil => rfl
  | cons e rest ih =>
    rcases List.pairwise_cons.mp hl with ⟨hhead, htail⟩
    by_cases hpe : p e.1 = true
    · simp [List.takeWhile_cons, hpe, List.countP_cons, ih htail, Nat.add_comm]
    · have hrest : rest.countP (fun e => p e.1) = 0 := by
        rw [List.countP_eq_zero]
        intro a ha hcon
        exact hpe (hp e.1 a.1 (hhead a ha) hcon)
      simp [List.takeWhile_cons, hpe, List.countP_cons, hrest]

/-- C6: for an array index over integer keys, the idx_lower_bound and
idx_upper_bound host callbacks return, as a u32, the distance from begin() to
the iterator produced by lower_bound(key) respectively upper_bound(key): on
the sorted entry sequence this is the number of entries with key < key
respectively key ≤ key. -/
theorem c6_index_seek_distance (entries : List (Int × Nat)) (key : Int)
    (hs : entries.Pairwise fun a b => a.1 ≤ b.1)
    (hlen : entries.length < 2 ^ 32) :
    index_seek entries key true = some (entries.countP fun e => decide (e.1 < key)) ∧
    index_seek entries key false = some (entries.countP fun e => decide (e.1 ≤ key)) := by
  have hlow := length_takeWhile_eq_countP_of_sorted (fun x => decide (x < key))
    (fun a b hab hb => by simp at hb ⊢; omega) entries hs
  have hhigh := length_takeWhile_eq_countP_of_sorted (fun x => decide (x ≤ key))
    (fun a b hab hb => by simp at hb ⊢; omega) entries hs
  have hpow : (2 : Nat) ^ 32 = 4294967296 := by norm_num
  have h1 : (entries.takeWhile fun e => decide (e.1 < key)).length < 4294967296 :=
    hpow ▸ Nat.lt_of_le_of_lt (length_takeWhile_le_self _ entries) hlen
  have h2 : (entries.takeWhile fun e => decide (e.1 ≤ key)).length < 4294967296 :=
    hpow ▸ Nat.lt_of_le_of_lt (length_takeWhile_le_self _ entries) hlen
  constructor
  · have hstep : index_seek entries key true =
        some (entries.takeWhile fun e => decide (e.1 < key)).length := by
      simp [index_seek, idx_lower_bound_pos, h1]
    rw [hstep, hlow]
  · have hstep : index_seek entries key false =
        some (entries.takeWhile fun e => decide (e.1 ≤ key)).length := by
      simp [index_seek, idx_upper_bound_pos, h2]
    rw [hstep, hhigh]

/-- C6 witness: the array index over i32 keys {1,3,3,5} has lower_bound(3) at
distance 1 and upper_bound(3) at distance 3. -/
theorem c6_witness :
    index_seek [(1, 0), (3, 1), (3, 2), (5, 3)] 3 true = some 1 ∧
    index_seek [(1, 0), (3, 1), (3, 2), (5, 3)] 3 false = some 3 := by
  have h := c6_index_seek_distance [(1, 0), (3, 1), (3, 2), (5, 3)] 3 (by decide) (by decide)
  exact ⟨h.1.trans (by decide), h.2.trans (by decide)⟩

/-- Dropping the length of a left part plus r drops the left part and then
r more. -/
theorem drop_length_add {a : Type} (A B : List a) (r : Nat) :
    (A ++ B).drop (A.length + r) = B.drop r := by
  induction A with
  | nil => simp
  | cons x A ih => simp [Nat.succ_add, ih]

/-- A NUL-free literal is copied whole by stpcpy. -/
theorem cstr_eq_self (l : List Nat) (h : (0 : Nat) ∉ l) : cstr l = l := by
  induction l with
  | nil => rfl
  | cons b rest ih =>
    have hb : b ≠ 0 := fun e => h (e ▸ List.mem_cons_self b rest)
    have hrest : (0 : Nat) ∉ rest := fun e => h (List.mem_cons_of_mem b e)
    have hb2 : decide (b ≠ 0) = true := by simp [hb]
    simp only [cstr, List.takeWhile_cons, hb2, if_true, List.cons.injEq, true_and]
    exact ih hrest

/-- The literal region, viewed from the recorded offset of the i-th literal,
starts with that literal's copied bytes, its NUL terminator, and then the
regions of the later literals. -/
theorem literalRegion_drop (lits : List (List Nat)) :
    ∀ i, i < lits.length →
      (literalRegion lits).drop (relOffset lits i) =
        cstr (lits.getD i []) ++ [0] ++ literalRegion (lits.drop (i + 1)) := by
  induction lits with
  | nil => intro i h; exact absurd h (by simp)
  | cons l rest ih =>
    intro i h
    cases i with
    | zero => simp [literalRegion, relOffset]
    | succ j =>
      have hj : j < rest.length := by simpa using h
      have step : (cstr l).length + 1 + relOffset rest j =
          (cstr l ++ [0]).length + relOffset rest j := by
        simp
      calc (literalRegion (l :: rest)).drop (relOffset (l :: rest) (j + 1))
          = ((cstr l ++ [0]) ++ literalRegion rest).drop
              ((cstr l ++ [0]).length + relOffset rest j) := by
            simp only [literalRegion, relOffset, step, List.append_assoc]
        _ = (literalRegion rest).drop (relOffset rest j) := drop_length_add _ _ _
        _ = cstr (rest.getD j []) ++ [0] ++ literalRegion (rest.drop (j + 1)) := ih j hj

/-- getD after drop reads at the shifted position. -/
theorem getD_drop_eq {a : Type} (l : List a) (d : a) :
    ∀ (n j : Nat), (l.drop n).getD j d = l.getD (n + j) d := by
  induction l with
  | nil => intro n j; simp
  | cons x t ih =>
    intro n j
    cases n with
    | zero => simp
    | succ k => simp [Nat.succ_add, ih k j]

/-- C7: after create_env writes the collected literals NUL-terminated into a
single contiguous region at the context's heap, the memory at
vm + literal_offset of the i-th literal equals that literal followed by a NUL
byte: every byte position j up to and including the terminator reads the j-th
byte of literal ++ [0]. -/
theorem c7_literal_region (mem : Nat → Nat) (heap : Nat) (lits : List (List Nat))
    (i : Nat) (hi : i < lits.length) (hnul : (0 : Nat) ∉ lits.getD i [])
    (j : Nat) (hj : j ≤ (lits.getD i []).length) :
    memAfter mem heap (literalRegion lits) (heap + relOffset lits i + j) =
      ((lits.getD i []) ++ [0]).getD j 0 := by
  have hdrop := literalRegion_drop lits i hi
  rw [cstr_eq_self _ hnul] at hdrop
  have hlen1 : ((literalRegion lits).drop (relOffset lits i)).length =
      (lits.getD i []).length + 1 + (literalRegion (lits.drop (i + 1))).length := by
    rw [hdrop]; simp [List.length_append]; omega
  have hlen2 : (literalRegion lits).length - relOffset lits i =
      (lits.getD i []).length + 1 + (literalRegion (lits.drop (i + 1))).length := by
    simpa [List.length_drop] using hlen1
  have hbound : relOffset lits i + j < (literalRegion lits).length := by omega
  have haddr : heap + relOffset lits i + j - heap = relOffset lits i + j := by omega
  rw [memAfter, if_pos ⟨by omega, by omega⟩, haddr]
  rw [show (literalRegion lits).getD (relOffset lits i + j) 0 =
        ((literalRegion lits).drop (relOffset lits i)).getD j 0 from
      (getD_drop_eq _ _ _ _).symm]
  rw [hdrop]
  rcases Nat.lt_or_ge j (lits.getD i []).length with hlt | hge
  · rw [List.append_assoc]
    rw [List.getD_append _ _ _ _ hlt, List.getD_append _ _ _ _ hlt]
  · have hej : j = (lits.getD i []).length := by omega
    subst hej
    rw [List.append_assoc]
    rw [List.getD_append_right _ _ _ _ (Nat.le_refl _),
        List.getD_append_right _ _ _ _ (Nat.le_refl _)]
    simp

/-- C7 witness: with literals "hi" (104 105) and "!" (33) written at heap
4096, the byte at the recorded offset of the second literal is 33. -/
theorem c7_witness :
    memAfter (fun _ => 7) 4096 (literalRegion [[104, 105], [33]])
      (4096 + relOffset [[104, 105], [33]] 1 + 0) = 33 := by
  have h := c7_literal_region (fun _ => 7) 4096 [[104, 105], [33]] 1 (by decide)
    (by decide) 0 (by decide)
  exact h.trans (by decide)

/-- Every entry of the deduplicated schema comes from the original schema. -/
theorem mem_of_mem_dedupAux :
    ∀ (s : List SchemaEntry) (seen : List String) (x : SchemaEntry),
      x ∈ dedupAux seen s → x ∈ s := by
  intro s
  induction s with
  | nil => intro seen x hx; exact absurd hx (by simp [dedupAux])
  | cons e rest ih =>
    intro seen x hx
    by_cases hmem : e.id ∈ seen
    · rw [dedupAux, if_pos hmem] at hx
      exact List.mem_cons_of_mem e (ih seen x hx)
    · rw [dedupAux, if_neg hmem] at hx
      rcases List.mem_cons.mp hx with hx | hx
      · exact hx ▸ List.mem_cons_self e rest
      · exact List.mem_cons_of_mem e (ih (e.id :: seen) x hx)

theorem mem_of_mem_deduplicate (s : List SchemaEntry) (x : SchemaEntry)
    (hx : x ∈ deduplicate s) : x ∈ s :=
  mem_of_mem_dedupAux s [] x hx

/-- A schema whose entries are all constant has an empty payload schema. -/
theorem drop_constants_deduplicate_nil (s : List SchemaEntry)
    (h : ∀ e ∈ s, e.isConst = true) : drop_constants (deduplicate s) = [] := by
  rw [drop_constants, List.filter_eq_nil_iff]
  intro a ha
  simp [h a (mem_of_mem_deduplicate s a ha)]

/-- C2: for every invocation of read_result_set whose root schema contains
only constants (hence the payload schema is empty and the generator passes
offset 0) and whose root operator is a callback or print sink, the reader
performs zero reads from the result buffer and emits exactly count identical
rows, built once from the nearest projection's constant expressions with
NULL-typed entries left unset. -/
theorem c2_constant_only_rows (ctx : WasmCtx) (count : Nat)
    (projs : List (Option Constant))
    (hproj : find_projection ctx.plan = some projs)
    (hconst : ∀ e ∈ rootSchema ctx.plan, e.isConst = true) :
    (sinkOf ctx.plan = Sink.callback →
       read_result_set ctx 0 count =
         some ⟨List.replicate count (templateTuple (rootSchema ctx.plan) projs), [], 0⟩) ∧
    (sinkOf ctx.plan = Sink.print →
       read_result_set ctx 0 count =
         some ⟨[], List.replicate count (templateLine (rootSchema ctx.plan) projs), 0⟩) ∧
    (∀ i, i < (rootSchema ctx.plan).length →
       (templateTuple (rootSchema ctx.plan) projs).get? i =
         some (if (entryD (rootSchema ctx.plan) i).ty = Ty.none then none
               else some (evalConstAt projs i))) := by
  have hpayload : drop_constants (deduplicate (rootSchema ctx.plan)) = [] :=
    drop_constants_deduplicate_nil _ hconst
  have hguard1 : (rootSchema ctx.plan).any
      (fun e => decide (e.ty ≠ Ty.none) && !e.isConst) = false := by
    rw [List.any_eq_false]
    intro e he
    simp [hconst e he]
  have hguard2 : (rootSchema ctx.plan).any (fun e => !e.isConst) = false := by
    rw [List.any_eq_false]
    intro e he
    simp [hconst e he]
  refine ⟨?_, ?_, ?_⟩
  · intro hsink
    by_cases hcount : count = 0
    · subst hcount
      simp [read_result_set, List.replicate]
    · simp [read_result_set, hcount, hpayload, hproj, hsink, hguard1]
      intro x hx _
      exact hconst x hx
  · intro hsink
    by_cases hcount : count = 0
    · subst hcount
      simp [read_result_set, List.replicate]
    · simp [read_result_set, hcount, hpayload, hproj, hsink, hguard2]
  · intro i hi
    simp [templateTuple, List.get?_eq_getElem?, List.getElem?_map, List.getElem?_range, hi]

/-- C2 witness: the constant-only print query SELECT 1 with count 3 emits the
line 1 three times and performs zero reads. -/
theorem c2_witness : read_result_set ctxC2 0 3 = some ⟨[], ["1", "1", "1"], 0⟩ := by
  have h := (c2_constant_only_rows ctxC2 3 [some (.cInt 1)] (by decide) (by decide)).2.1
    (by decide)
  exact h.trans (by decide)

/-- get? yields the getD value at in-range positions. -/
theorem get?_eq_some_getD {a : Type} (l : List a) (d : a) :
    ∀ j, j < l.length → l.get? j = some (l.getD j d) := by
  induction l with
  | nil => intro j hj; exact absurd hj (by simp)
  | cons x t ih =>
    intro j hj
    cases j with
    | zero => rfl
    | succ k => exact ih k (Nat.lt_of_succ_lt_succ hj)

/-- getD reads the value determined by get?. -/
theorem getD_eq_of_get?_some {a : Type} (l : List a) (d x : a) (j : Nat)
    (h : l.get? j = some x) : l.getD j d = x := by
  induction l generalizing j with
  | nil => exact absurd h (by simp)
  | cons y t ih =>
    cases j with
    | zero =>
      have : some y = some x := h
      simpa using this
    | succ k => exact ih k h

/-- findIdx does not pass a position satisfying the predicate. -/
theorem findIdx_le_of_getD {a : Type} (p : a → Bool) :
    ∀ (l : List a) (d : a) (k : Nat), k < l.length → p (l.getD k d) = true →
      l.findIdx p ≤ k := by
  intro l
  induction l with
  | nil => intro d k hk _; exact absurd hk (by simp)
  | cons x t ih =>
    intro d k hk hp
    by_cases hx : p x = true
    · simp [List.findIdx_cons, hx]
    · cases k with
      | zero => exact absurd hp (by simpa using hx)
      | succ m =>
        have := ih d m (Nat.lt_of_succ_lt_succ hk) hp
        simp only [List.findIdx_cons, hx, cond_false]
        omega

/-- The position found by findIdx satisfies the predicate. -/
theorem findIdx_getD {a : Type} (p : a → Bool) :
    ∀ (l : List a) (d : a), l.findIdx p < l.length →
      p (l.getD (l.findIdx p) d) = true := by
  intro l
  induction l with
  | nil => intro d h; exact absurd h (by simp)
  | cons x t ih =>
    intro d h
    by_cases hx : p x = true
    · simp [List.findIdx_cons, hx]
    · simp only [List.findIdx_cons, hx, cond_false] at h ⊢
      exact ih d (by simpa using h)

/-- Entries produced by dedupAux have identifiers outside the seen set. -/
theorem dedupAux_id_not_seen :
    ∀ (s : List SchemaEntry) (seen : List String) (x : SchemaEntry),
      x ∈ dedupAux seen s → x.id ∉ seen := by
  intro s
  induction s with
  | nil => intro seen x hx; exact absurd hx (by simp [dedupAux])
  | cons e rest ih =>
    intro seen x hx
    by_cases hmem : e.id ∈ seen
    · rw [dedupAux, if_pos hmem] at hx
      exact ih seen x hx
    · rw [dedupAux, if_neg hmem] at hx
      rcases List.mem_cons.mp hx with hx | hx
      · exact hx ▸ hmem
      · intro hcon
        exact ih (e.id :: seen) x hx (List.mem_cons_of_mem _ hcon)

/-- The deduplicated schema has pairwise distinct identifiers. -/
theorem dedupAux_pairwise :
    ∀ (s : List SchemaEntry) (seen : List String),
      (dedupAux seen s).Pairwise fun a b => a.id ≠ b.id := by
  intro s
  induction s with
  | nil => intro seen; simp [dedupAux]
  | cons e rest ih =>
    intro seen
    by_cases hmem : e.id ∈ seen
    · rw [dedupAux, if_pos hmem]
      exact ih seen
    · rw [dedupAux, if_neg hmem]
      refine List.pairwise_cons.mpr ⟨?_, ih (e.id :: seen)⟩
      intro x hx
      have := dedupAux_id_not_seen rest (e.id :: seen) x hx
      intro hcon
      exact this (hcon ▸ List.mem_cons_self e.id seen)

theorem deduplicate_pairwise (s : List SchemaEntry) :
    (deduplicate s).Pairwise fun a b => a.id ≠ b.id :=
  dedupAux_pairwise s []

/-- The payload schema has pairwise distinct identifiers. -/
theorem payload_pairwise (s : List SchemaEntry) :
    (drop_constants (deduplicate s)).Pairwise fun a b => a.id ≠ b.id :=
  (deduplicate_pairwise s).filter _

/-- Every identifier of the schema survives into the deduplicated schema. -/
theorem exists_dedupAux_id :
    ∀ (s : List SchemaEntry) (seen : List String) (e : SchemaEntry),
      e ∈ s → e.id ∉ seen → ∃ f ∈ dedupAux seen s, f.id = e.id := by
  intro s
  induction s with
  | nil => intro seen e he _; exact absurd he (by simp)
  | cons a rest ih =>
    intro seen e he hseen
    by_cases hmem : a.id ∈ seen
    · rw [dedupAux, if_pos hmem]
      rcases List.mem_cons.mp he with he | he
      · exact absurd (he ▸ hseen) (by simpa using hmem)
      · exact ih seen e he hseen
    · rw [dedupAux, if_neg hmem]
      by_cases hid : e.id = a.id
      · exact ⟨a, List.mem_cons_self a _, hid.symm⟩
      · have he' : e ∈ rest := by
          rcases List.mem_cons.mp he with he | he
          · exact absurd (congrArg SchemaEntry.id he) hid
          · exact he
        have hseen' : e.id ∉ a.id :: seen := by
          intro hcon
          rcases List.mem_cons.mp hcon with hcon | hcon
          · exact hid hcon
          · exact hseen hcon
        rcases ih (a.id :: seen) e he' hseen' with ⟨f, hf, hfid⟩
        exact ⟨f, List.mem_cons_of_mem a hf, hfid⟩

theorem exists_deduplicate_id (s : List SchemaEntry) (e : SchemaEntry) (he : e ∈ s) :
    ∃ f ∈ deduplicate s, f.id = e.id :=
  exists_dedupAux_id s [] e he (by simp)

/-- Positions below the length read members of the list. -/
theorem entryD_mem (s : List SchemaEntry) (k : Nat) (hk : k < s.length) :
    entryD s k ∈ s := by
  rw [entryD, List.getD_eq_getElem s _ hk]
  exact List.getElem_mem hk

/-- If identifiers determine constness, every non-constant schema entry's
identifier occurs in the payload schema. -/
theorem exists_payload_pos (s : List SchemaEntry) (e : SchemaEntry)
    (hcc : ∀ x ∈ s, ∀ y ∈ s, x.id = y.id → x.isConst = y.isConst)
    (he : e ∈ s) (henc : e.isConst = false) :
    ∃ k, k < (drop_constants (deduplicate s)).length ∧
      (entryD (drop_constants (deduplicate s)) k).id = e.id := by
  rcases exists_deduplicate_id s e he with ⟨f, hf, hfid⟩
  have hfs : f ∈ s := mem_of_mem_deduplicate s f hf
  have hfc : f.isConst = false := (hcc f hfs e he hfid).trans henc
  have hfp : f ∈ drop_constants (deduplicate s) := by
    rw [drop_constants, List.mem_filter]
    exact ⟨hf, by simp [hfc]⟩
  rcases List.mem_iff_get.mp hfp with ⟨n, hn⟩
  refine ⟨n.val, n.isLt, ?_⟩
  rw [entryD, List.getD_eq_getElem _ _ n.isLt]
  have : (drop_constants (deduplicate s))[n.val] = f := by
    simpa [List.get_eq_getElem] using hn
  rw [this, hfid]

/-- Pointwise reading of the constants-only base tuple. -/
theorem rowBase_get? (schema : List SchemaEntry) (projs : List (Option Constant))
    (j : Nat) (hj : j < schema.length) :
    (rowBase schema projs).get? j =
      some (if (entryD schema j).ty = Ty.none then none
            else if (entryD schema j).isConst then some (evalConstAt projs j) else none) := by
  simp [rowBase, List.get?_eq_getElem?, List.getElem?_map, List.getElem?_range, hj]

/-- Pointwise reading of one store group of the copy program. -/
theorem storeMatching_get? (schema : List SchemaEntry) (id : String) (v : Option Constant)
    (t : List (Option Constant)) (j : Nat) (hj : j < schema.length) :
    (storeMatching schema id v t).get? j =
      some (if (entryD schema j).id = id then v else t.getD j none) := by
  simp [storeMatching, List.get?_eq_getElem?, List.getElem?_map, List.getElem?_range, hj]

/-- Characterization of the copy program's fold after its first m store
groups: a position whose identifier was already matched holds the loaded
value of the first (unique) matching payload entry; otherwise it still holds
its base value. -/
theorem copy_fold_get (schema payload : List SchemaEntry) (projs : List (Option Constant))
    (row : List (Option Constant))
    (hpw : payload.Pairwise fun a b => a.id ≠ b.id) :
    ∀ (m : Nat), m ≤ payload.length → ∀ j, j < schema.length →
      ((List.range m).foldl
          (fun t i =>
            storeMatching schema (entryD payload i).id
              (if (entryD payload i).ty = Ty.none then none else row.getD i none) t)
          (rowBase schema projs)).get? j =
        some
          (if payloadIndex payload (entryD schema j).id < m then
             (if (entryD payload (payloadIndex payload (entryD schema j).id)).ty = Ty.none
              then none
              else row.getD (payloadIndex payload (entryD schema j).id) none)
           else (rowBase schema projs).getD j none) := by
  intro m
  induction m with
  | zero =>
    intro _ j hj
    rw [List.range_zero, List.foldl_nil, if_neg (Nat.not_lt_zero _)]
    have hb := rowBase_get? schema projs j hj
    rw [hb, getD_eq_of_get?_some _ none _ j hb]
  | succ m ihm =>
    intro hm j hj
    have hm' : m ≤ payload.length := Nat.le_of_succ_le hm
    have hmlt : m < payload.length := hm
    rw [List.range_succ, List.foldl_append, List.foldl_cons, List.foldl_nil,
      storeMatching_get? schema _ _ _ j hj]
    have hih := ihm hm' j hj
    have hgetD := getD_eq_of_get?_some _ none _ j hih
    by_cases heq : (entryD schema j).id = (entryD payload m).id
    · have hple : payloadIndex payload (entryD schema j).id ≤ m := by
        apply findIdx_le_of_getD _ payload ⟨"", Ty.none, false⟩ m hmlt
        have h2 : (entryD payload m).id = (entryD schema j).id := heq.symm
        simpa [entryD] using h2
      have hpge : ¬payloadIndex payload (entryD schema j).id < m := by
        intro hlt
        have hfi : payloadIndex payload (entryD schema j).id < payload.length :=
          Nat.lt_of_lt_of_le hlt hm'
        have hfound := findIdx_getD (fun f : SchemaEntry => decide (f.id = (entryD schema j).id))
          payload ⟨"", Ty.none, false⟩ hfi
        have hids := (List.pairwise_iff_get.mp hpw)
          ⟨payloadIndex payload (entryD schema j).id, hfi⟩ ⟨m, hmlt⟩ hlt
        rw [List.get_eq_getElem, List.get_eq_getElem] at hids
        apply hids
        have h1 : (payload.getD (payloadIndex payload (entryD schema j).id)
            ⟨"", Ty.none, false⟩).id = (entryD schema j).id := by simpa using hfound
        rw [List.getD_eq_getElem _ _ hfi] at h1
        have h2 : (entryD payload m).id = (entryD schema j).id := heq.symm
        rw [entryD, List.getD_eq_getElem _ _ hmlt] at h2
        rw [h1, h2]
      have hpm : payloadIndex payload (entryD schema j).id = m := by omega
      rw [if_pos heq, if_pos (by omega : payloadIndex payload (entryD schema j).id < m + 1),
        hpm]
    · have hne : payloadIndex payload (entryD schema j).id ≠ m := by
        intro hgot
        have hfi2 : List.findIdx (fun f : SchemaEntry => decide (f.id = (entryD schema j).id))
            payload < payload.length := by
          have : payloadIndex payload (entryD schema j).id < payload.length := by omega
          exact this
        have hfound := findIdx_getD (fun f : SchemaEntry => decide (f.id = (entryD schema j).id))
          payload ⟨"", Ty.none, false⟩ hfi2
        have hgot2 : List.findIdx (fun f : SchemaEntry => decide (f.id = (entryD schema j).id))
            payload = m := hgot
        rw [hgot2] at hfound
        have : (entryD payload m).id = (entryD schema j).id := by simpa [entryD] using hfound
        exact heq this.symm
      rw [if_neg heq, hgetD]
      have hcond : (payloadIndex payload (entryD schema j).id < m + 1) =
          (payloadIndex payload (entryD schema j).id < m) := by
        apply propext
        constructor
        · intro h; omega
        · intro h; omega
      simp only [hcond]

/-- Payload entries are non-constant entries of the schema. -/
theorem payload_mem_props (s : List SchemaEntry) (x : SchemaEntry)
    (hx : x ∈ drop_constants (deduplicate s)) : x ∈ s ∧ x.isConst = false := by
  rw [drop_constants, List.mem_filter] at hx
  exact ⟨mem_of_mem_deduplicate s x hx.1, by simpa using hx.2⟩

/-- Pointwise reading of the copy program's output tuple, in terms of the
first payload position matching the identifier. -/
theorem rowDedup_get? (schema payload : List SchemaEntry) (projs : List (Option Constant))
    (row : List (Option Constant))
    (hpw : payload.Pairwise fun a b => a.id ≠ b.id)
    (j : Nat) (hj : j < schema.length) :
    (rowDedup schema payload projs row).get? j =
      some
        (if payloadIndex payload (entryD schema j).id < payload.length then
           (if (entryD payload (payloadIndex payload (entryD schema j).id)).ty = Ty.none
            then none
            else row.getD (payloadIndex payload (entryD schema j).id) none)
         else (rowBase schema projs).getD j none) :=
  copy_fold_get schema payload projs row hpw payload.length (Nat.le_refl _) j hj

/-- C3: when deduplication occurred, each emitted output row of the callback
sink stores the value loaded for a payload entry into every output position
whose identifier matches, so duplicated columns carry equal values, while
constant columns are filled from the projection's constant expressions.
Stated for a plan whose identifiers determine constness and type (the
invariants the source's copy loop insists on). -/
theorem c3_dedup_copy_program (ctx : WasmCtx) (offset count : Nat)
    (projs : List (Option Constant))
    (hoff : offset ≠ 0)
    (hproj : find_projection ctx.plan = some projs)
    (hsink : sinkOf ctx.plan = Sink.callback)
    (hdedup : (rootSchema ctx.plan).length ≠ (deduplicate (rootSchema ctx.plan)).length)
    (hpay : drop_constants (deduplicate (rootSchema ctx.plan)) ≠ [])
    (hcc : ∀ e ∈ rootSchema ctx.plan, ∀ f ∈ rootSchema ctx.plan,
             e.id = f.id → e.isConst = f.isConst)
    (htt : ∀ e ∈ rootSchema ctx.plan, ∀ f ∈ rootSchema ctx.plan,
             e.id = f.id → e.ty = f.ty) :
    read_result_set ctx offset count =
      some ⟨(List.range count).map (fun i =>
               rowDedup (rootSchema ctx.plan)
                 (drop_constants (deduplicate (rootSchema ctx.plan))) projs (ctx.buffer i)),
            [], count⟩ ∧
    (∀ (row : List (Option Constant)) (j : Nat), j < (rootSchema ctx.plan).length →
       (rowDedup (rootSchema ctx.plan)
           (drop_constants (deduplicate (rootSchema ctx.plan))) projs row).get? j =
         some
           (if (entryD (rootSchema ctx.plan) j).ty = Ty.none then none
            else if (entryD (rootSchema ctx.plan) j).isConst then
              some (evalConstAt projs j)
            else
              row.getD
                (payloadIndex (drop_constants (deduplicate (rootSchema ctx.plan)))
                  (entryD (rootSchema ctx.plan) j).id) none)) ∧
    (∀ (row : List (Option Constant)) (j1 j2 : Nat),
       j1 < (rootSchema ctx.plan).length → j2 < (rootSchema ctx.plan).length →
       (entryD (rootSchema ctx.plan) j1).id = (entryD (rootSchema ctx.plan) j2).id →
       (entryD (rootSchema ctx.plan) j1).isConst = false →
       (rowDedup (rootSchema ctx.plan)
           (drop_constants (deduplicate (rootSchema ctx.plan))) projs row).get? j1 =
         (rowDedup (rootSchema ctx.plan)
             (drop_constants (deduplicate (rootSchema ctx.plan))) projs row).get? j2) := by
  have hpw := payload_pairwise (rootSchema ctx.plan)
  have hchar : ∀ (row : List (Option Constant)) (j : Nat),
      j < (rootSchema ctx.plan).length →
      (rowDedup (rootSchema ctx.plan)
          (drop_constants (deduplicate (rootSchema ctx.plan))) projs row).get? j =
        some
          (if (entryD (rootSchema ctx.plan) j).ty = Ty.none then none
           else if (entryD (rootSchema ctx.plan) j).isConst then
             some (evalConstAt projs j)
           else
             row.getD
               (payloadIndex (drop_constants (deduplicate (rootSchema ctx.plan)))
                 (entryD (rootSchema ctx.plan) j).id) none) := by
    intro row j hj
    rw [rowDedup_get? _ _ _ _ hpw j hj]
    have hes : entryD (rootSchema ctx.plan) j ∈ rootSchema ctx.plan :=
      entryD_mem _ j hj
    have hbase := getD_eq_of_get?_some _ none _ j (rowBase_get? (rootSchema ctx.plan) projs j hj)
    by_cases hty : (entryD (rootSchema ctx.plan) j).ty = Ty.none
    · rw [if_pos hty]
      by_cases hpl : payloadIndex (drop_constants (deduplicate (rootSchema ctx.plan)))
          (entryD (rootSchema ctx.plan) j).id <
          (drop_constants (deduplicate (rootSchema ctx.plan))).length
      · rw [if_pos hpl]
        have hfound := findIdx_getD
          (fun f : SchemaEntry => decide (f.id = (entryD (rootSchema ctx.plan) j).id))
          (drop_constants (deduplicate (rootSchema ctx.plan))) ⟨"", Ty.none, false⟩ hpl
        have hid : (entryD (drop_constants (deduplicate (rootSchema ctx.plan)))
            (payloadIndex (drop_constants (deduplicate (rootSchema ctx.plan)))
              (entryD (rootSchema ctx.plan) j).id)).id =
            (entryD (rootSchema ctx.plan) j).id := by simpa [entryD] using hfound
        have hmemp := payload_mem_props (rootSchema ctx.plan) _
          (entryD_mem (drop_constants (deduplicate (rootSchema ctx.plan))) _ hpl)
        have htyp := htt _ hmemp.1 _ hes hid
        rw [if_pos (htyp.trans hty)]
      · rw [if_neg hpl, hbase, if_pos hty]
    · rw [if_neg hty]
      by_cases hcst : (entryD (rootSchema ctx.plan) j).isConst = true
      · rw [if_pos hcst]
        have hpl : ¬payloadIndex (drop_constants (deduplicate (rootSchema ctx.plan)))
            (entryD (rootSchema ctx.plan) j).id <
            (drop_constants (deduplicate (rootSchema ctx.plan))).length := by
          intro hpl
          have hfound := findIdx_getD
            (fun f : SchemaEntry => decide (f.id = (entryD (rootSchema ctx.plan) j).id))
            (drop_constants (deduplicate (rootSchema ctx.plan))) ⟨"", Ty.none, false⟩ hpl
          have hid : (entryD (drop_constants (deduplicate (rootSchema ctx.plan)))
              (payloadIndex (drop_constants (deduplicate (rootSchema ctx.plan)))
                (entryD (rootSchema ctx.plan) j).id)).id =
              (entryD (rootSchema ctx.plan) j).id := by simpa [entryD] using hfound
          have hmemp := payload_mem_props (rootSchema ctx.plan) _
            (entryD_mem (drop_constants (deduplicate (rootSchema ctx.plan))) _ hpl)
          have := hcc _ hmemp.1 _ hes hid
          rw [hmemp.2] at this
          rw [hcst] at this
          exact Bool.false_ne_true this
        rw [if_neg hpl, hbase, if_neg hty, if_pos hcst]
      · have hcf : (entryD (rootSchema ctx.plan) j).isConst = false :=
          Bool.eq_false_iff.mpr hcst
        rw [if_neg hcst]
        rcases exists_payload_pos (rootSchema ctx.plan) _ hcc hes hcf with ⟨k, hk, hkid⟩
        have hple : payloadIndex (drop_constants (deduplicate (rootSchema ctx.plan)))
            (entryD (rootSchema ctx.plan) j).id ≤ k := by
          apply findIdx_le_of_getD _ _ ⟨"", Ty.none, false⟩ k hk
          simpa [entryD] using hkid
        have hpl : payloadIndex (drop_constants (deduplicate (rootSchema ctx.plan)))
            (entryD (rootSchema ctx.plan) j).id <
            (drop_constants (deduplicate (rootSchema ctx.plan))).length :=
          Nat.lt_of_le_of_lt hple hk
        rw [if_pos hpl]
        have hfound := findIdx_getD
          (fun f : SchemaEntry => decide (f.id = (entryD (rootSchema ctx.plan) j).id))
          (drop_constants (deduplicate (rootSchema ctx.plan))) ⟨"", Ty.none, false⟩ hpl
        have hid : (entryD (drop_constants (deduplicate (rootSchema ctx.plan)))
            (payloadIndex (drop_constants (deduplicate (rootSchema ctx.plan)))
              (entryD (rootSchema ctx.plan) j).id)).id =
            (entryD (rootSchema ctx.plan) j).id := by simpa [entryD] using hfound
        have hmemp := payload_mem_props (rootSchema ctx.plan) _
          (entryD_mem (drop_constants (deduplicate (rootSchema ctx.plan))) _ hpl)
        have htyp := htt _ hmemp.1 _ hes hid
        rw [if_neg (htyp ▸ hty)]
  refine ⟨?_, hchar, ?_⟩
  · by_cases hcount : count = 0
    · subst hcount
      simp [read_result_set]
    · have hbne : ((offset == 0) !=
          (drop_constants (deduplicate (rootSchema ctx.plan))).isEmpty) = false := by
        have h1 : (offset == 0) = false := by simpa using hoff
        have h2 : (drop_constants (deduplicate (rootSchema ctx.plan))).isEmpty = false := by
          simpa [List.isEmpty_iff] using hpay
        rw [h1, h2]
        rfl
      have hnotempty : (drop_constants (deduplicate (rootSchema ctx.plan))).isEmpty ≠ true := by
        simpa [List.isEmpty_iff] using hpay
      simp [read_result_set, hcount, hbne, hnotempty, hsink, hproj, hdedup, hoff]
  · intro row j1 j2 hj1 hj2 hid hc1
    have he1 : entryD (rootSchema ctx.plan) j1 ∈ rootSchema ctx.plan := entryD_mem _ j1 hj1
    have he2 : entryD (rootSchema ctx.plan) j2 ∈ rootSchema ctx.plan := entryD_mem _ j2 hj2
    have hc2 : (entryD (rootSchema ctx.plan) j2).isConst = false :=
      (hcc _ he2 _ he1 hid.symm).trans hc1
    have hty12 := htt _ he1 _ he2 hid
    rw [hchar row j1 hj1, hchar row j2 hj2, hid, hty12, hc2, hc1]
    simp

/-- C3 witness: SELECT id, id over the row (7) with offset 4 and one tuple
emits the single output row (7, 7). -/
theorem c3_witness :
    read_result_set ctxC3 4 1 = some ⟨[[some (.cInt 7), some (.cInt 7)]], [], 1⟩ := by
  have h := (c3_dedup_copy_program ctxC3 4 1 [none, none] (by decide) (by decide)
    (by decide) (by decide) (by decide) (by decide) (by decide)).1
  exact h.trans (by decide)
